import Mathlib

/-!
Verification of the process core of the simmer discrete-event simulation
kernel (`src/process.h`): Order policy triples, Arrival time accounting,
clone counting, Batched composites, Generator and Manager drivers.

C++ `double` timestamps and durations are embedded as `ℚ`; C++ `int` as
`Int`; `UMAP` (`std::unordered_map`) as an association list with unique
keys and `operator[]` insert-on-miss semantics.  Method bodies that the
header only declares (they live in a `.cpp` file that is not part of the
sources) are modelled from the specification; each such definition carries
a doc comment starting with `Modelled from the spec:`.
-/

namespace Simmer

/-- The `Order` struct of `process.h`: an arrival's priority / preemption /
restart policy.  Fields mirror the C++ members. -/
structure Order where
  priority : Int
  preemptible : Int
  restart : Bool
deriving DecidableEq

/-- `Order::set_priority` (`process.h:67`).  Returns the updated struct
together with the warning flag (`Rcpp::warning` is emitted exactly when the
input is negative).  After clamping, `preemptible` is raised to `priority`
when it is below it. -/
def Order.set_priority (o : Order) (value : Int) : Order × Bool :=
  let warn : Bool := decide (value < 0)
  let value := if value < 0 then 0 else value
  let priority := value
  let preemptible := if o.preemptible < priority then priority else o.preemptible
  ({ priority := priority, preemptible := preemptible, restart := o.restart }, warn)

/-- `Order::set_preemptible` (`process.h:76`).  A value below the current
`priority` is coerced to `priority`, with a warning. -/
def Order.set_preemptible (o : Order) (value : Int) : Order × Bool :=
  let warn : Bool := decide (value < o.priority)
  let value := if value < o.priority then o.priority else value
  ({ o with preemptible := value }, warn)

/-- `Order::set_restart` (`process.h:84`): stores unconditionally. -/
def Order.set_restart (o : Order) (value : Bool) : Order :=
  { o with restart := value }

/-- The `Order` constructor (`process.h:61`): runs `set_priority`,
`set_preemptible`, `set_restart` in this order.  In C++ the fields are
uninitialized when the constructor body starts, so the pre-constructor
contents are taken as an arbitrary `init : Order`; the theorems show the
result does not depend on it. -/
def Order.construct (init : Order) (p pe : Int) (r : Bool) : Order :=
  (((init.set_priority p).1.set_preemptible pe).1.set_restart r)

/-- The documented invariant of `Order` (`process.h:88-89`):
`0 ≤ priority ≤ preemptible`. -/
def Order.wf (o : Order) : Prop :=
  0 ≤ o.priority ∧ o.priority ≤ o.preemptible

instance (o : Order) : Decidable o.wf := by
  unfold Order.wf; infer_instance

/-- C1: every `Order(p, pe, r)` (with arbitrary pre-constructor field
contents) satisfies `0 ≤ priority ≤ preemptible`; each setter preserves the
invariant; `Order(-3, -5)` yields `priority = 0` and `preemptible = 0`; and
the setters are total functions whose only extra output is the warning
flag. -/
theorem order_invariant_holds :
    (∀ init p pe r, (Order.construct init p pe r).wf) ∧
    (∀ (o : Order) (v : Int), o.wf → (o.set_priority v).1.wf) ∧
    (∀ (o : Order) (v : Int), o.wf → (o.set_preemptible v).1.wf) ∧
    (∀ (o : Order) (v : Bool), o.wf → (o.set_restart v).wf) ∧
    (∀ init, (Order.construct init (-3) (-5) false).priority = 0 ∧
      (Order.construct init (-3) (-5) false).preemptible = 0) := by
  refine ⟨?_, ?_, ?_, ?_, ?_⟩
  · intro init p pe r
    simp only [Order.construct, Order.set_priority, Order.set_preemptible,
      Order.set_restart, Order.wf]
    constructor <;> split_ifs <;> omega
  · intro o v _
    simp only [Order.set_priority, Order.wf]
    constructor <;> split_ifs <;> omega
  · intro o v h
    simp only [Order.set_preemptible, Order.wf]
    refine ⟨h.1, ?_⟩
    split_ifs <;> omega
  · intro o v h
    exact h
  · intro init
    simp only [Order.construct, Order.set_priority, Order.set_preemptible,
      Order.set_restart]
    constructor <;> split_ifs <;> omega

/-- Witness for C1: the invariant-preservation clauses applied at a
concrete order and value. -/
theorem order_invariant_holds_witness :
    (Order.set_priority ⟨0, 0, false⟩ 5).1.wf ∧
    (Order.set_preemptible ⟨0, 0, false⟩ 7).1.wf ∧
    (Order.set_restart ⟨0, 0, false⟩ true).wf :=
  ⟨order_invariant_holds.2.1 ⟨0, 0, false⟩ 5 (by decide),
   order_invariant_holds.2.2.1 ⟨0, 0, false⟩ 7 (by decide),
   order_invariant_holds.2.2.2.1 ⟨0, 0, false⟩ true (by decide)⟩

/-- C2: after `set_priority v` the stored priority is `0` when `v < 0`
(and the warning flag is set exactly then), otherwise `v`; `preemptible`
is raised to the new priority exactly when it was below it; `restart`
does not change. -/
theorem set_priority_correct (o : Order) (v : Int) :
    (o.set_priority v).1.priority = (if v < 0 then 0 else v) ∧
    (o.set_priority v).1.preemptible =
      max o.preemptible (if v < 0 then 0 else v) ∧
    (o.set_priority v).1.restart = o.restart ∧
    ((o.set_priority v).2 = true ↔ v < 0) := by
  refine ⟨by simp [Order.set_priority], ?_, by simp [Order.set_priority],
    by simp [Order.set_priority]⟩
  simp only [Order.set_priority]
  split_ifs <;> omega

/-- `Arrival::ArrTime` (`process.h:137-143`): per-resource (or lifetime)
time accounting, with the default-constructed state of the C++ struct. -/
structure ArrTime where
  start : ℚ
  activity : ℚ
  busy_until : ℚ
  remaining : ℚ
deriving DecidableEq

/-- The C++ default constructor `ArrTime()` (`process.h:142`). -/
def ArrTime.init : ArrTime := ⟨-1, 0, -1, 0⟩

/-! `UMAP` (`std::unordered_map`) embedded as an association list with
unique keys.  `operator[]` inserts a default-constructed value on a missing
key; reads and writes through it are `UMap.index` / `UMap.indexMod`. -/

/-- Key lookup in an association list. -/
def UMap.find? [DecidableEq α] : List (α × β) → α → Option β
  | [], _ => none
  | (a, b) :: rest, k => if k = a then some b else UMap.find? rest k

/-- The keys of an association list, in insertion order. -/
def UMap.keys (m : List (α × β)) : List α := m.map Prod.fst

/-- `m[k]` read: returns the stored value (default `d` on a miss) together
with the map after `operator[]`'s insert-on-miss. -/
def UMap.index [DecidableEq α] (d : β) : List (α × β) → α → β × List (α × β)
  | [], k => (d, [(k, d)])
  | (a, b) :: rest, k =>
    if k = a then (b, (a, b) :: rest)
    else
      let p := UMap.index d rest k
      (p.1, (a, b) :: p.2)

/-- `m[k] = f(m[k])` write: inserts `f d` on a miss, otherwise applies `f`
in place. -/
def UMap.indexMod [DecidableEq α] (d : β) (f : β → β) : List (α × β) → α → List (α × β)
  | [], k => [(k, f d)]
  | (a, b) :: rest, k =>
    if k = a then (a, f b) :: rest
    else (a, b) :: UMap.indexMod d f rest k

theorem UMap.find?_eq_none_iff [DecidableEq α] (m : List (α × β)) (k : α) :
    UMap.find? m k = none ↔ k ∉ UMap.keys m := by
  induction m with
  | nil => simp [UMap.find?, UMap.keys]
  | cons hd tl ih =>
    obtain ⟨a, b⟩ := hd
    by_cases h : k = a
    · simp [UMap.find?, UMap.keys, h]
    · simp [UMap.find?, UMap.keys, h, ih]

theorem UMap.index_fst [DecidableEq α] (d : β) (m : List (α × β)) (k : α) :
    (UMap.index d m k).1 = (UMap.find? m k).getD d := by
  induction m with
  | nil => simp [UMap.index, UMap.find?]
  | cons hd tl ih =>
    obtain ⟨a, b⟩ := hd
    by_cases h : k = a <;> simp [UMap.index, UMap.find?, h, ih]

theorem UMap.keys_index_snd [DecidableEq α] (d : β) (m : List (α × β)) (k : α) :
    UMap.keys (UMap.index d m k).2 =
      if k ∈ UMap.keys m then UMap.keys m else UMap.keys m ++ [k] := by
  induction m with
  | nil => simp [UMap.index, UMap.keys]
  | cons hd tl ih =>
    obtain ⟨a, b⟩ := hd
    by_cases h : k = a
    · simp [UMap.index, UMap.keys, h]
    · simp only [UMap.keys] at ih ⊢
      by_cases h2 : k ∈ List.map Prod.fst tl
      · simp only [if_pos h2] at ih
        simp [UMap.index, h, h2, ih]
      · simp only [if_neg h2] at ih
        simp [UMap.index, h, h2, ih]

theorem UMap.keys_indexMod [DecidableEq α] (d : β) (f : β → β) (m : List (α × β)) (k : α) :
    UMap.keys (UMap.indexMod d f m k) =
      if k ∈ UMap.keys m then UMap.keys m else UMap.keys m ++ [k] := by
  induction m with
  | nil => simp [UMap.indexMod, UMap.keys]
  | cons hd tl ih =>
    obtain ⟨a, b⟩ := hd
    by_cases h : k = a
    · simp [UMap.indexMod, UMap.keys, h]
    · simp only [UMap.keys] at ih ⊢
      by_cases h2 : k ∈ List.map Prod.fst tl
      · simp only [if_pos h2] at ih
        simp [UMap.indexMod, h, h2, ih]
      · simp only [if_neg h2] at ih
        simp [UMap.indexMod, h, h2, ih]

theorem UMap.find?_indexMod_self [DecidableEq α] (d : β) (f : β → β)
    (m : List (α × β)) (k : α) :
    UMap.find? (UMap.indexMod d f m k) k = some (f ((UMap.find? m k).getD d)) := by
  induction m with
  | nil => simp [UMap.indexMod, UMap.find?]
  | cons hd tl ih =>
    obtain ⟨a, b⟩ := hd
    by_cases h : k = a <;> simp [UMap.indexMod, UMap.find?, h, ih]

theorem UMap.find?_indexMod_ne [DecidableEq α] (d : β) (f : β → β)
    (m : List (α × β)) (k k' : α) (h : k' ≠ k) :
    UMap.find? (UMap.indexMod d f m k) k' = UMap.find? m k' := by
  induction m with
  | nil => simp [UMap.indexMod, UMap.find?, h]
  | cons hd tl ih =>
    obtain ⟨a, b⟩ := hd
    by_cases ha : k = a
    · subst ha
      simp [UMap.indexMod, UMap.find?, h]
    · by_cases hb : k' = a <;> simp [UMap.indexMod, UMap.find?, ha, hb, ih]

/-- The mutable state of an `Arrival` (`process.h:136-187`): order,
whole-trajectory accounting, per-resource accounting, user attributes and
selected-resource handles.  `Activity*` and `Resource*` are opaque handles
(`Nat`, `0` = null for a value-initialized `Resource*`). -/
structure Arrival where
  sim : Nat
  name : String
  mon : Int
  order : Order
  lifetime : ArrTime
  restime : List (String × ArrTime)
  activity : Option Nat
  attributes : List (String × ℚ)
  selected : List (Int × Nat)
deriving DecidableEq

/-- The `Arrival` constructor (`process.h:161-162`): stores the order and
the first activity; the containers start empty and `lifetime` is
default-constructed. -/
def Arrival.construct (sim : Nat) (name : String) (mon : Int) (order : Order)
    (first_activity : Option Nat) : Arrival :=
  { sim := sim, name := name, mon := mon, order := order,
    lifetime := ArrTime.init, restime := [], activity := first_activity,
    attributes := [], selected := [] }

/-- `Arrival::set_start` (`process.h:175`): `restime[name].start = value`. -/
def Arrival.set_start (a : Arrival) (name : String) (value : ℚ) : Arrival :=
  { a with restime :=
      UMap.indexMod ArrTime.init (fun t => { t with start := value }) a.restime name }

/-- `Arrival::set_activity(std::string, double)` (`process.h:177`):
`restime[name].activity = value`. -/
def Arrival.set_activity (a : Arrival) (name : String) (value : ℚ) : Arrival :=
  { a with restime :=
      UMap.indexMod ArrTime.init (fun t => { t with activity := value }) a.restime name }

/-- `Arrival::get_activity` (`process.h:178`): `return restime[name].activity`.
`operator[]` inserts a default `ArrTime` on a miss, so the returned state
carries the possibly-extended map. -/
def Arrival.get_activity (a : Arrival) (name : String) : ℚ × Arrival :=
  let p := UMap.index ArrTime.init a.restime name
  (p.1.activity, { a with restime := p.2 })

/-- `Arrival::set_selected` (`process.h:179`): `selected[id] = res`. -/
def Arrival.set_selected (a : Arrival) (id : Int) (res : Nat) : Arrival :=
  { a with selected := UMap.indexMod 0 (fun _ => res) a.selected id }

/-- `Arrival::get_selected` (`process.h:180`): `return selected[id]`; a miss
yields the value-initialized null handle `0`. -/
def Arrival.get_selected (a : Arrival) (id : Int) : Nat × Arrival :=
  let p := UMap.index 0 a.selected id
  (p.1, { a with selected := p.2 })

/-- The current `restime` entry for a resource, read without mutation
(default-constructed when the resource was never touched). -/
def Arrival.restime_entry (a : Arrival) (resource : String) : ArrTime :=
  (UMap.find? a.restime resource).getD ArrTime.init

/-- Modelled from the spec: the body of `Arrival::leave` is only declared
in `process.h` (line 169).  Per §4.3 it computes
`remaining = max(0, busy_until − now)` for the resource's TimeSpan when
`order.restart` is false; when `order.restart` is true it discards the
partial progress instead, resetting `remaining` to the full original
service requirement (`full`); in both cases `activity_time` is updated
with the elapsed time since `start`. -/
def Arrival.leave (a : Arrival) (resource : String) (now full : ℚ) : Arrival :=
  { a with restime :=
      UMap.indexMod ArrTime.init (fun t =>
        { t with
          remaining := if a.order.restart then full else max 0 (t.busy_until - now),
          activity := t.activity + (now - t.start) }) a.restime resource }

/-- Modelled from the spec: the body of `Arrival::set_attribute` is only
declared in `process.h` (line 171).  Per §4.3 it inserts or overwrites
`attributes[key]`, never fails, and returns a status distinguishing
"created" (`1` here) from "updated" (`0` here). -/
def Arrival.set_attribute (a : Arrival) (key : String) (value : ℚ) : Arrival × Int :=
  ({ a with attributes := UMap.indexMod 0 (fun _ => value) a.attributes key },
   if UMap.find? a.attributes key = none then 1 else 0)

/-- Modelled from the spec: the attribute reader used by trajectories lives
outside this header; §7(d) requires that reading a key never set returns
the numeric default `0`. -/
def Arrival.read_attribute (a : Arrival) (key : String) : ℚ :=
  (UMap.find? a.attributes key).getD 0

theorem leave_entry (a : Arrival) (resource : String) (now full : ℚ) :
    (a.leave resource now full).restime_entry resource =
      { a.restime_entry resource with
        remaining := if a.order.restart then full
          else max 0 ((a.restime_entry resource).busy_until - now),
        activity := (a.restime_entry resource).activity +
          (now - (a.restime_entry resource).start) } := by
  simp [Arrival.leave, Arrival.restime_entry, UMap.find?_indexMod_self]

/-- C3: `leave(resource)` with `order.restart = false` records
`remaining = max(0, busy_until − now)` for that resource — `2` when
`now = busy_until − 2` and `0` when `now ≥ busy_until` — while with
`order.restart = true` the partial progress is discarded and `remaining`
is reset to the full original service requirement; in both cases
`activity_time` grows by the elapsed time since `start`. -/
theorem leave_remaining_correct (a : Arrival) (resource : String) (now full : ℚ) :
    (a.order.restart = false →
      ((a.leave resource now full).restime_entry resource).remaining =
        max 0 ((a.restime_entry resource).busy_until - now)) ∧
    (a.order.restart = false → now = (a.restime_entry resource).busy_until - 2 →
      ((a.leave resource now full).restime_entry resource).remaining = 2) ∧
    (a.order.restart = false → (a.restime_entry resource).busy_until ≤ now →
      ((a.leave resource now full).restime_entry resource).remaining = 0) ∧
    (a.order.restart = true →
      ((a.leave resource now full).restime_entry resource).remaining = full) ∧
    ((a.leave resource now full).restime_entry resource).activity =
      (a.restime_entry resource).activity + (now - (a.restime_entry resource).start) := by
  rw [leave_entry]
  refine ⟨fun h => by simp [h], fun h h2 => ?_, fun h h2 => ?_, fun h => by simp [h], rfl⟩
  · have e : (a.restime_entry resource).busy_until - now = 2 := by rw [h2]; ring
    simp [h, e]
  · have e : max 0 ((a.restime_entry resource).busy_until - now) = 0 := by
      rw [max_eq_left]
      linarith
    simp [h, e]

/-- Witness for C3: a concrete arrival that visited resource `"r"` with
`busy_until = 10`, left at `now = 8` without restart: `remaining = 2`. -/
theorem leave_remaining_correct_witness :
    ((({ Arrival.construct 0 "a0" 1 ⟨0, 0, false⟩ none with
        restime := [("r", ⟨1, 0, 10, 0⟩)] } : Arrival).leave "r" 8 0
      ).restime_entry "r").remaining = 2 := by
  have h := leave_remaining_correct
    ({ Arrival.construct 0 "a0" 1 ⟨0, 0, false⟩ none with
       restime := [("r", ⟨1, 0, 10, 0⟩)] } : Arrival) "r" 8 0
  refine h.2.1 rfl ?_
  norm_num [Arrival.restime_entry, UMap.find?]

theorem nodup_key_extend [DecidableEq α] {l : List α} (n : α) (h : l.Nodup) :
    (if n ∈ l then l else l ++ [n]).Nodup := by
  split_ifs with hm
  · exact h
  · simp [List.nodup_append, h, hm]

/-- C8: reads of never-set keys return well-defined defaults and never
fail — a never-visited resource's recorded activity time reads as `0`, a
never-set selected-resource slot is the value-initialized null handle `0`,
a never-set attribute reads as `0` — and `set_attribute k v` touches
exactly the entry for `k`: the key set gains at most that key, its value
becomes `v`, every other key keeps its value; concretely,
`set_attribute "k" 5` on a fresh arrival leaves exactly `[("k", 5)]` and
reading the unset `"j"` afterwards returns `0`. -/
theorem lookup_miss_defaults (a : Arrival) (n : String) (id : Int) (k k' : String) (v : ℚ) :
    (n ∉ UMap.keys a.restime → (a.get_activity n).1 = 0) ∧
    (id ∉ UMap.keys a.selected → (a.get_selected id).1 = 0) ∧
    (k ∉ UMap.keys a.attributes → a.read_attribute k = 0) ∧
    (UMap.keys (a.set_attribute k v).1.attributes =
      (if k ∈ UMap.keys a.attributes then UMap.keys a.attributes
       else UMap.keys a.attributes ++ [k])) ∧
    (UMap.find? (a.set_attribute k v).1.attributes k = some v) ∧
    (k' ≠ k → UMap.find? (a.set_attribute k v).1.attributes k' =
      UMap.find? a.attributes k') ∧
    ((Arrival.construct 0 "a" 1 ⟨0, 0, false⟩ none).set_attribute "k" 5).1.attributes =
      [("k", 5)] ∧
    ((Arrival.construct 0 "a" 1 ⟨0, 0, false⟩ none).set_attribute "k" 5
      ).1.read_attribute "j" = 0 := by
  refine ⟨fun h => ?_, fun h => ?_, fun h => ?_, ?_, ?_, fun h => ?_, rfl, rfl⟩
  · rw [← UMap.find?_eq_none_iff a.restime n] at h
    simp [Arrival.get_activity, UMap.index_fst, h, ArrTime.init]
  · rw [← UMap.find?_eq_none_iff a.selected id] at h
    simp [Arrival.get_selected, UMap.index_fst, h]
  · rw [← UMap.find?_eq_none_iff a.attributes k] at h
    simp [Arrival.read_attribute, h]
  · simp [Arrival.set_attribute, UMap.keys_indexMod]
  · simp [Arrival.set_attribute, UMap.find?_indexMod_self]
  · simp [Arrival.set_attribute, UMap.find?_indexMod_ne _ _ _ _ _ h]

/-- Witness for C8: the conditional clauses applied to a fresh arrival. -/
theorem lookup_miss_defaults_witness :
    ((Arrival.construct 0 "a" 1 ⟨0, 0, false⟩ none).get_activity "x").1 = 0 ∧
    ((Arrival.construct 0 "a" 1 ⟨0, 0, false⟩ none).get_selected 3).1 = 0 ∧
    (Arrival.construct 0 "a" 1 ⟨0, 0, false⟩ none).read_attribute "q" = 0 ∧
    UMap.find? ((Arrival.construct 0 "a" 1 ⟨0, 0, false⟩ none).set_attribute "k" 5
        ).1.attributes "j" =
      UMap.find? (Arrival.construct 0 "a" 1 ⟨0, 0, false⟩ none).attributes "j" := by
  have h := lookup_miss_defaults (Arrival.construct 0 "a" 1 ⟨0, 0, false⟩ none) "x" 3 "k" "j" 5
  exact ⟨h.1 (by simp [Arrival.construct, UMap.keys]),
    h.2.1 (by simp [Arrival.construct, UMap.keys]),
    h.2.2.1 (by simp [Arrival.construct, UMap.keys]),
    h.2.2.2.2.2.1 (by decide)⟩

/-- C9: `restime` has unique keys and gains exactly one entry, for the
named resource, the first time an operation touches that resource
(`set_start`, `set_activity`, `get_activity`, `leave`); an operation on a
resource already present adds no entry, and no operation adds an entry
for any other resource. -/
theorem restime_unique_keys (a : Arrival) (n : String) (v now full : ℚ) :
    (UMap.keys (a.set_start n v).restime =
      (if n ∈ UMap.keys a.restime then UMap.keys a.restime
       else UMap.keys a.restime ++ [n])) ∧
    (UMap.keys (a.set_activity n v).restime =
      (if n ∈ UMap.keys a.restime then UMap.keys a.restime
       else UMap.keys a.restime ++ [n])) ∧
    (UMap.keys (a.get_activity n).2.restime =
      (if n ∈ UMap.keys a.restime then UMap.keys a.restime
       else UMap.keys a.restime ++ [n])) ∧
    (UMap.keys (a.leave n now full).restime =
      (if n ∈ UMap.keys a.restime then UMap.keys a.restime
       else UMap.keys a.restime ++ [n])) ∧
    ((UMap.keys a.restime).Nodup →
      (UMap.keys (a.set_start n v).restime).Nodup ∧
      (UMap.keys (a.set_activity n v).restime).Nodup ∧
      (UMap.keys (a.get_activity n).2.restime).Nodup ∧
      (UMap.keys (a.leave n now full).restime).Nodup) := by
  have h1 : UMap.keys (a.set_start n v).restime =
      (if n ∈ UMap.keys a.restime then UMap.keys a.restime
       else UMap.keys a.restime ++ [n]) := by
    simp [Arrival.set_start, UMap.keys_indexMod]
  have h2 : UMap.keys (a.set_activity n v).restime =
      (if n ∈ UMap.keys a.restime then UMap.keys a.restime
       else UMap.keys a.restime ++ [n]) := by
    simp [Arrival.set_activity, UMap.keys_indexMod]
  have h3 : UMap.keys (a.get_activity n).2.restime =
      (if n ∈ UMap.keys a.restime then UMap.keys a.restime
       else UMap.keys a.restime ++ [n]) := by
    simp [Arrival.get_activity, UMap.keys_index_snd]
  have h4 : UMap.keys (a.leave n now full).restime =
      (if n ∈ UMap.keys a.restime then UMap.keys a.restime
       else UMap.keys a.restime ++ [n]) := by
    simp [Arrival.leave, UMap.keys_indexMod]
  refine ⟨h1, h2, h3, h4, fun hN => ?_⟩
  rw [h1, h2, h3, h4]
  exact ⟨nodup_key_extend n hN, nodup_key_extend n hN,
    nodup_key_extend n hN, nodup_key_extend n hN⟩

/-- Witness for C9: the uniqueness-preservation clause applied to an
arrival that already visited `"r"`. -/
theorem restime_unique_keys_witness :
    (UMap.keys (({ Arrival.construct 0 "a" 1 ⟨0, 0, false⟩ none with
        restime := [("r", ArrTime.init)] } : Arrival).set_start "s" 4).restime).Nodup := by
  have h := restime_unique_keys
    ({ Arrival.construct 0 "a" 1 ⟨0, 0, false⟩ none with
       restime := [("r", ArrTime.init)] } : Arrival) "s" 4 0 0
  exact (h.2.2.2.2 (by simp [Arrival.construct, UMap.keys])).1

/-- The shared clone counter of an `Arrival` family: the value of the
heap cell `*clones` together with the number of times `delete clones` has
executed.  The `Arrival` constructor allocates it as `new int(1)`
(`process.h:162`). -/
structure CloneCell where
  clones : Int
  frees : Nat
deriving DecidableEq

/-- The counter as allocated by the constructor: `new int(1)`. -/
def CloneCell.fresh : CloneCell := ⟨1, 0⟩

/-- `~Arrival()` (`process.h:164`): `if (!--(*clones)) delete clones;` —
decrements the shared counter and frees it exactly when the decremented
value is zero. -/
def CloneCell.destroy (c : CloneCell) : CloneCell :=
  { clones := c.clones - 1,
    frees := c.frees + (if c.clones - 1 = 0 then 1 else 0) }

/-- Modelled from the spec: the `CLONEABLE_COUNT` macro that defines
`clone()` lives outside `process.h`; per §3, a clone shares the counter
cell and the count grows by one per clone. -/
def CloneCell.cloneIncr (c : CloneCell) : CloneCell :=
  { c with clones := c.clones + 1 }

/-- `n` successive clones of the same family. -/
def CloneCell.cloneN (c : CloneCell) : Nat → CloneCell
  | 0 => c
  | n + 1 => (CloneCell.cloneN c n).cloneIncr

/-- `n` successive destructions within the family (the destructor is the
same state transformation for every instance, so destruction order is
irrelevant). -/
def CloneCell.destroyN (c : CloneCell) : Nat → CloneCell
  | 0 => c
  | n + 1 => (CloneCell.destroyN c n).destroy

/-- C6: cloning an Arrival `N` times yields a shared counter at `N + 1`;
after `k` of the `N + 1` destructions the counter reads `N + 1 − k`; and
the cell is freed exactly once, by the destruction that brings the counter
to zero (no destruction before the last frees it, so it is never freed
twice). -/
theorem clone_count_free_once (N k : Nat) (hk : k ≤ N + 1) :
    (CloneCell.fresh.cloneN N).clones = (N : Int) + 1 ∧
    ((CloneCell.fresh.cloneN N).destroyN k).clones = (N : Int) + 1 - k ∧
    ((CloneCell.fresh.cloneN N).destroyN k).frees = (if k = N + 1 then 1 else 0) := by
  have hc : ∀ n : Nat, (CloneCell.fresh.cloneN n).clones = (n : Int) + 1 ∧
      (CloneCell.fresh.cloneN n).frees = 0 := by
    intro n
    induction n with
    | zero => exact ⟨rfl, rfl⟩
    | succ n ih =>
      refine ⟨?_, ih.2⟩
      simp only [CloneCell.cloneN, CloneCell.cloneIncr, ih.1]
      push_cast
      ring
  refine ⟨(hc N).1, ?_⟩
  induction k with
  | zero =>
    refine ⟨by simpa using (hc N).1, ?_⟩
    rw [if_neg (by omega)]
    exact (hc N).2
  | succ k ih =>
    obtain ⟨h1, h2⟩ := ih (by omega)
    constructor
    · simp only [CloneCell.destroyN, CloneCell.destroy, h1]
      push_cast
      ring
    · simp only [CloneCell.destroyN, CloneCell.destroy, h1, h2]
      split_ifs <;> omega

/-- Witness for C6: two clones (three instances), three destructions:
counter at `0`, freed exactly once. -/
theorem clone_count_free_once_witness :
    ((CloneCell.fresh.cloneN 2).destroyN 3).clones = 0 ∧
    ((CloneCell.fresh.cloneN 2).destroyN 3).frees = 1 := by
  have h := clone_count_free_once 2 3 (by omega)
  refine ⟨?_, ?_⟩
  · rw [h.2.1]
    decide
  · rw [h.2.2]
    decide

/-- The `Generator` process state (`process.h:96-131`): the
produced-arrival counter, the first activity of new arrivals (opaque
handle) and the Order template.  The external distribution provider is
modelled by the list of durations it yields; `none` stands for a
non-finite value (NaN or an infinity of the C++ `double`). -/
structure Generator where
  count : Int
  first_activity : Nat
  order : Order
deriving DecidableEq

/-- A record of one activated arrival: its creation time and the Order and
first activity the generator constructed it with. -/
structure ArrivalRec where
  time : ℚ
  order : Order
  first_activity : Nat
deriving DecidableEq

/-- The generator's termination signal: a non-finite or negative
duration. -/
def stopSignal : Option ℚ → Bool
  | none => true
  | some d => decide (d < 0)

/-- Modelled from the spec: the body of `Generator::run` is only declared
in `process.h` (line 122).  Per §4.5, on the termination signal the
generator does not re-schedule itself and creates nothing; otherwise it
schedules its own next firing `duration` time units ahead, constructs one
new Arrival carrying its Order and first activity, increments the
generated-count and activates the new Arrival.  Returns the updated
generator, the next firing time (if re-scheduled) and the activated
arrival (if any). -/
def Generator.runStep (g : Generator) (now : ℚ) (d : Option ℚ) :
    Generator × Option ℚ × Option ArrivalRec :=
  match d with
  | none => (g, none, none)
  | some dur =>
    if dur < 0 then (g, none, none)
    else ({ g with count := g.count + 1 }, some (now + dur),
      some ⟨now, g.order, g.first_activity⟩)

/-- Repeated firings of the generator over the successive durations the
provider yields, collecting the activated arrivals; once a firing does not
re-schedule, no later duration is ever consumed. -/
def Generator.drive (g : Generator) (now : ℚ) :
    List (Option ℚ) → Generator × List ArrivalRec
  | [] => (g, [])
  | d :: rest =>
    match Generator.runStep g now d with
    | (g2, some t, some a) =>
      let p := Generator.drive g2 t rest
      (p.1, a :: p.2)
    | (g2, _, _) => (g2, [])

/-- C4: a non-finite or negative duration makes the generator stop — it
does not re-schedule and produces no arrival then or ever after,
regardless of what the provider would yield next — while a finite
non-negative duration `dur` makes `run` schedule the next firing `dur`
ahead, construct one Arrival carrying the generator's Order and first
activity, increment the generated-count by one and activate that Arrival;
a provider yielding `[2, 3, -1]` produces exactly the two arrivals born at
`now` and `now + 2`, with the count up by two. -/
theorem generator_stop_and_schedule (g : Generator) (now dur : ℚ) (d : Option ℚ)
    (rest : List (Option ℚ)) :
    (stopSignal d = true → g.runStep now d = (g, none, none)) ∧
    (stopSignal d = true → g.drive now (d :: rest) = (g, [])) ∧
    (0 ≤ dur → g.runStep now (some dur) =
      ({ g with count := g.count + 1 }, some (now + dur),
        some ⟨now, g.order, g.first_activity⟩)) ∧
    (g.drive now [some 2, some 3, some (-1)]).2 =
      [⟨now, g.order, g.first_activity⟩, ⟨now + 2, g.order, g.first_activity⟩] ∧
    (g.drive now [some 2, some 3, some (-1)]).1.count = g.count + 2 := by
  have hstop : stopSignal d = true → g.runStep now d = (g, none, none) := by
    intro h
    cases d with
    | none => rfl
    | some dur2 =>
      simp only [stopSignal, decide_eq_true_eq] at h
      simp [Generator.runStep, if_pos h]
  refine ⟨hstop, fun h => ?_, fun h => ?_, ?_, ?_⟩
  · simp only [Generator.drive, hstop h]
  · simp [Generator.runStep, not_lt.mpr h]
  · norm_num [Generator.drive, Generator.runStep]
  · norm_num [Generator.drive, Generator.runStep]
    ring

/-- Witness for C4: a generator fed `-1` first stops with no arrivals, and
a step with duration `5` re-schedules five units ahead. -/
theorem generator_stop_and_schedule_witness :
    Generator.drive ⟨0, 7, ⟨0, 0, false⟩⟩ 0 [some (-1), some 5] =
      (⟨0, 7, ⟨0, 0, false⟩⟩, []) ∧
    Generator.runStep ⟨0, 7, ⟨0, 0, false⟩⟩ 0 (some 5) =
      (⟨1, 7, ⟨0, 0, false⟩⟩, some 5, some ⟨0, ⟨0, 0, false⟩, 7⟩) := by
  have h := generator_stop_and_schedule ⟨0, 7, ⟨0, 0, false⟩⟩ 0 5 (some (-1)) [some 5]
  constructor
  · exact h.2.1 (by norm_num [stopSignal])
  · rw [h.2.2.1 (by norm_num)]
    norm_num

/-- The `Manager` process state (`process.h:23-42`): the timed schedule of
parameter changes (`duration`, `value`), the repetition `period` and the
current `index`.  The parameter name and setter callable do not influence
the schedule and are omitted. -/
structure Manager where
  duration : List ℚ
  value : List Int
  period : Int
  index : Nat
deriving DecidableEq

/-- Modelled from the spec: the body of `Manager::run` is only declared in
`process.h` (line 33).  Per §4.6, a firing waits `duration[index]`, then
applies `value[index]` and advances `index`; when `index` has reached the
end of the sequence, the index wraps back to `0` and the schedule
continues if `period > 0`, and the Manager stops (dormant, no firing) if
`period ≤ 0`.  Returns `none` when dormant, otherwise the advanced state
with the firing time and the value applied. -/
def Manager.runStep (m : Manager) (now : ℚ) : Option (Manager × ℚ × Int) :=
  let m := if m.duration.length ≤ m.index then
      (if 0 < m.period then { m with index := 0 } else m)
    else m
  if h : m.index < m.duration.length then
    some ({ m with index := m.index + 1 },
      now + m.duration.get ⟨m.index, h⟩,
      m.value.getD m.index 0)
  else none

/-- The sequence of `(firing time, applied value)` pairs a Manager
produces, observed for up to `fuel` firings. -/
def Manager.firings : Nat → Manager → ℚ → List (ℚ × Int)
  | 0, _, _ => []
  | fuel + 1, m, now =>
    (m.runStep now).elim []
      (fun p => (p.2.1, p.2.2) :: Manager.firings fuel p.1 p.2.1)

theorem Manager.runStep_dormant (m : Manager) (now : ℚ) (hp : m.period ≤ 0)
    (hw : m.duration.length ≤ m.index) : m.runStep now = none := by
  simp only [Manager.runStep, if_pos hw, if_neg (by omega : ¬ 0 < m.period)]
  rw [dif_neg (by omega)]

theorem Manager.firings_dormant (fuel : Nat) (m : Manager) (now : ℚ)
    (hp : m.period ≤ 0) (hw : m.duration.length ≤ m.index) :
    Manager.firings fuel m now = [] := by
  cases fuel with
  | zero => rfl
  | succ fuel => simp [Manager.firings, Manager.runStep_dormant m now hp hw]

theorem Manager.firings_length (fuel : Nat) :
    ∀ (m : Manager) (now : ℚ), 0 < m.period → m.duration ≠ [] →
      (Manager.firings fuel m now).length = fuel := by
  induction fuel with
  | zero =>
    intro m now _ _
    rfl
  | succ fuel ih =>
    intro m now hp hd
    have hlen : 0 < m.duration.length := List.length_pos.mpr hd
    by_cases hw : m.duration.length ≤ m.index
    · simp only [Manager.firings, Manager.runStep, if_pos hw, if_pos hp]
      rw [dif_pos (by simpa using hlen)]
      simp only [Option.elim_some, List.length_cons]
      refine congrArg Nat.succ (ih _ _ ?_ ?_)
      · exact hp
      · exact hd
    · simp only [Manager.firings, Manager.runStep, if_neg hw]
      rw [dif_pos (by omega)]
      simp only [Option.elim_some, List.length_cons]
      refine congrArg Nat.succ (ih _ _ ?_ ?_)
      · exact hp
      · exact hd

/-- C5: each Manager firing applies `value[index]` after waiting
`duration[index]` and advances `index`; with `period > 0` the schedule
wraps at the end of the sequence and the Manager fires indefinitely (one
firing per unit of fuel, for ever), while with `period ≤ 0` reaching the
end makes it dormant for ever; concretely, `duration = [1, 2]`,
`value = [10, 20]` with `period = 2` yields `10@1, 20@3, 10@4, 20@6` and
with `period = 0` yields `10@1, 20@3` and then nothing, however long it
is observed. -/
theorem manager_schedule (m : Manager) (now : ℚ) (fuel : Nat) :
    (∀ h : m.index < m.duration.length,
      m.runStep now = some ({ m with index := m.index + 1 },
        now + m.duration.get ⟨m.index, h⟩, m.value.getD m.index 0)) ∧
    (0 < m.period → m.duration ≠ [] →
      (Manager.firings fuel m now).length = fuel) ∧
    (m.period ≤ 0 → m.duration.length ≤ m.index → m.runStep now = none) ∧
    Manager.firings 4 ⟨[1, 2], [10, 20], 2, 0⟩ 0 =
      [(1, 10), (3, 20), (4, 10), (6, 20)] ∧
    Manager.firings (fuel + 2) ⟨[1, 2], [10, 20], 0, 0⟩ 0 = [(1, 10), (3, 20)] := by
  refine ⟨fun h => ?_, Manager.firings_length fuel m now,
    Manager.runStep_dormant m now, ?_, ?_⟩
  · simp only [Manager.runStep]
    rw [if_neg (by omega)]
    rw [dif_pos h]
  · norm_num [Manager.firings, Manager.runStep, List.get]
  · have h2 : Manager.firings (fuel + 2) ⟨[1, 2], [10, 20], 0, 0⟩ 0 =
        (1, 10) :: (3, 20) :: Manager.firings fuel ⟨[1, 2], [10, 20], 0, 2⟩ 3 := by
      norm_num [Manager.firings, Manager.runStep, List.get]
    rw [h2, Manager.firings_dormant fuel ⟨[1, 2], [10, 20], 0, 2⟩ 3 (by decide) (by decide)]

/-- Witness for C5: the one-firing clause and the indefinite-repetition
clause at a concrete Manager. -/
theorem manager_schedule_witness :
    Manager.runStep ⟨[1, 2], [10, 20], 2, 0⟩ 0 =
      some (⟨[1, 2], [10, 20], 2, 1⟩, 1, 10) ∧
    (Manager.firings 5 ⟨[1, 2], [10, 20], 2, 0⟩ 0).length = 5 := by
  have h := manager_schedule ⟨[1, 2], [10, 20], 2, 0⟩ 0 5
  constructor
  · rw [h.1 (by decide)]
    norm_num [List.get]
  · exact h.2.1 (by decide) (by decide)

/-- The `Batched` composite state (`process.h:192-221`): the underlying
`Arrival` state, the exclusively-owned sub-arrivals and the `permanent`
flag. -/
structure Batched where
  base : Arrival
  arrivals : List Arrival
  permanent : Bool
deriving DecidableEq

/-- The `Batched` constructor (`process.h:198-199`): it delegates to
`Arrival(sim, name, true, Order(), batcher)` — monitoring hard-wired on
(the C++ `true`, i.e. `mon = 1`) and a default-constructed `Order()` —
and stores the `permanent` flag; the sub-arrival vector starts empty.
`initOrder` stands for the uninitialized memory the `Order()` default
constructor starts from. -/
def Batched.construct (initOrder : Order) (sim : Nat) (name : String)
    (batcher : Option Nat) (permanent : Bool) : Batched :=
  { base := Arrival.construct sim name 1 (Order.construct initOrder 0 0 false) batcher,
    arrivals := [],
    permanent := permanent }

/-- What happens to one member when its batch terminates: released back to
independent scheduling, or finalized carrying the id of the batch's
terminal record. -/
inductive MemberFate
  | released
  | finalizedWith (record : Nat)
deriving DecidableEq

/-- Modelled from the spec: the body of `Batched::terminate` is only
declared in `process.h` (line 214).  Per §4.4, with `permanent = false`
the members are released back to independent scheduling (none finalized,
each resuming its own trajectory position) instead of being finalized
with the batch; with `permanent = true` the batch finalizes as a single
unit and every member is finalized together with it, sharing the batch's
terminal record.  `record` is the batch's terminal record id; the
`finished` flag does not change the members' fate. -/
def Batched.terminate (b : Batched) (finished : Bool) (record : Nat) :
    List (Arrival × MemberFate) :=
  if b.permanent then b.arrivals.map (fun a => (a, MemberFate.finalizedWith record))
  else b.arrivals.map (fun a => (a, MemberFate.released))

/-- C7: `terminate(finished)` on a non-permanent batch releases every
member back to independent scheduling (no member finalized); on a
permanent batch every member is finalized together with the batch,
sharing the batch's terminal record; no member is dropped or invented
either way. -/
theorem batched_terminate_members (b : Batched) (finished : Bool) (record : Nat) :
    (b.permanent = false →
      ∀ p ∈ b.terminate finished record, p.2 = MemberFate.released) ∧
    (b.permanent = true →
      ∀ p ∈ b.terminate finished record, p.2 = MemberFate.finalizedWith record) ∧
    (b.terminate finished record).map Prod.fst = b.arrivals := by
  refine ⟨fun h p hp => ?_, fun h p hp => ?_, ?_⟩
  · simp only [Batched.terminate, h, Bool.false_eq_true, if_false,
      List.mem_map] at hp
    obtain ⟨a, -, rfl⟩ := hp
    rfl
  · simp only [Batched.terminate, h, if_true] at hp
    rw [List.mem_map] at hp
    obtain ⟨a, -, rfl⟩ := hp
    rfl
  · unfold Batched.terminate
    split_ifs <;> (rw [List.map_map]; exact List.map_id _)

/-- Witness for C7: a non-permanent batch of three sub-arrivals whose
`terminate(finished = true)` releases all three, and the same batch made
permanent finalizes all three with the batch's record. -/
theorem batched_terminate_members_witness :
    (∀ p ∈ Batched.terminate
        ⟨Arrival.construct 0 "b" 1 ⟨0, 0, false⟩ none,
         [Arrival.construct 0 "a1" 1 ⟨0, 0, false⟩ none,
          Arrival.construct 0 "a2" 1 ⟨0, 0, false⟩ none,
          Arrival.construct 0 "a3" 1 ⟨0, 0, false⟩ none], false⟩ true 9,
      p.2 = MemberFate.released) ∧
    (∀ p ∈ Batched.terminate
        ⟨Arrival.construct 0 "b" 1 ⟨0, 0, false⟩ none,
         [Arrival.construct 0 "a1" 1 ⟨0, 0, false⟩ none,
          Arrival.construct 0 "a2" 1 ⟨0, 0, false⟩ none,
          Arrival.construct 0 "a3" 1 ⟨0, 0, false⟩ none], true⟩ true 9,
      p.2 = MemberFate.finalizedWith 9) :=
  ⟨(batched_terminate_members
      ⟨Arrival.construct 0 "b" 1 ⟨0, 0, false⟩ none,
       [Arrival.construct 0 "a1" 1 ⟨0, 0, false⟩ none,
        Arrival.construct 0 "a2" 1 ⟨0, 0, false⟩ none,
        Arrival.construct 0 "a3" 1 ⟨0, 0, false⟩ none], false⟩ true 9).1 rfl,
   (batched_terminate_members
      ⟨Arrival.construct 0 "b" 1 ⟨0, 0, false⟩ none,
       [Arrival.construct 0 "a1" 1 ⟨0, 0, false⟩ none,
        Arrival.construct 0 "a2" 1 ⟨0, 0, false⟩ none,
        Arrival.construct 0 "a3" 1 ⟨0, 0, false⟩ none], true⟩ true 9).2.1 rfl⟩

/-- C10: every constructed `Batched` — whatever the arguments and whatever
the uninitialized memory its default `Order()` starts from — has
monitoring enabled (`mon = 1`) and the default Order
(`priority = 0`, `preemptible = 0`, `restart = false`); of its state only
the name, the batcher activity and the `permanent` flag (plus the owning
simulator handle) come from the constructor arguments, and they are
stored unchanged. -/
theorem batched_construct_defaults (initOrder : Order) (sim : Nat) (name : String)
    (batcher : Option Nat) (permanent : Bool) :
    (Batched.construct initOrder sim name batcher permanent).base.mon = 1 ∧
    (Batched.construct initOrder sim name batcher permanent).base.order =
      ⟨0, 0, false⟩ ∧
    (Batched.construct initOrder sim name batcher permanent).base.sim = sim ∧
    (Batched.construct initOrder sim name batcher permanent).base.name = name ∧
    (Batched.construct initOrder sim name batcher permanent).base.activity = batcher ∧
    (Batched.construct initOrder sim name batcher permanent).permanent = permanent ∧
    (Batched.construct initOrder sim name batcher permanent).arrivals = [] ∧
    Batched.construct initOrder sim name batcher permanent =
      Batched.construct ⟨0, 0, false⟩ sim name batcher permanent := by
  have horder : ∀ io : Order, Order.construct io 0 0 false = ⟨0, 0, false⟩ := by
    intro io
    simp only [Order.construct, Order.set_priority, Order.set_preemptible,
      Order.set_restart]
    split_ifs <;> simp_all
  refine ⟨rfl, horder initOrder, rfl, rfl, rfl, rfl, rfl, ?_⟩
  simp [Batched.construct, Arrival.construct, horder]

end Simmer
